import Mathlib

/-!
Verification of the `dirsize` quota backend
(`src/plugins/quota/quota-dirsize.c`).

The backend measures storage usage by recursively summing file sizes
under a set of root paths.  The development below is a shallow embedding
of that C file:

* the filesystem seen by one scan is modelled by the mutual inductive
  types `DirView` / `Entry` / `Entries`: an `Entry` describes what
  `lstat` reports for one directory entry, and a `DirView` describes
  what `opendir`+`readdir` report for a directory object;
* `get_dir_usage`, `get_usage`, `quota_count_path_add`,
  `get_quota_root_usage`, `dirsize_quota_get_resource` and
  `dirsize_quota_root_get_resources` are direct translations of the
  C functions of the same names; C out-parameters (`*value`,
  `*error_r`) become explicit result components, so a C function
  returning `-1` with `*error_r` set becomes a result whose first
  component is `some errorMessage`;
* strings are `List Char`, so that the prefix arithmetic of
  `quota_count_path_add` (C `strncmp` over a given length and the
  read of the char just past a prefix, which for C is the NUL
  terminator when the strings have equal length) can be stated exactly.
-/

namespace QuotaDirsize

/-- Strings of the model: lists of characters. -/
abbrev Str := List Char

/-- Message built by `t_strdup_printf("opendir(%s) failed: %m", dir)`:
the failing operation, the path handed to `opendir`, and the OS error
text substituted for `%m`. -/
def opendirFailMsg (p : Str) (reason : Str) : Str :=
  "opendir(".toList ++ p ++ ") failed: ".toList ++ reason

/-- Message built by `t_strdup_printf("lstat(%s) failed: %m", ...)`. -/
def lstatFailMsg (p : Str) (reason : Str) : Str :=
  "lstat(".toList ++ p ++ ") failed: ".toList ++ reason

mutual

/-- What `opendir` + `readdir` yield for a directory object:
`enoent` (the directory vanished), some other `opendir` failure with
its OS error text, or the list of directory entries. -/
inductive DirView : Type where
  | enoent : DirView
  | openErr : Str → DirView
  | listing : Entries → DirView
  deriving DecidableEq

/-- What `lstat` reports for one directory entry: the entry vanished
(`ENOENT` race), `lstat` failed with an OS error text, the entry is a
non-directory (regular file, symlink, device, ...) with its
`st_size`, or the entry is a directory with its `st_size` and the
view obtained when the walker subsequently opens it. -/
inductive Entry : Type where
  | gone : Entry
  | lstatErr : Str → Entry
  | nondir : Nat → Entry
  | isdir : Nat → DirView → Entry
  deriving DecidableEq

/-- A `readdir` sequence: (name, lstat outcome) pairs. -/
inductive Entries : Type where
  | nil : Entries
  | cons : Str → Entry → Entries → Entries
  deriving DecidableEq

end

mutual

/-- C `get_dir_usage(dir, value, error_r)` (quota-dirsize.c:48-103).
`dir` is the path being opened, `d` what the filesystem answers to
`opendir(dir)`, `value` the running accumulator `*value`.  Result:
(`*error_r` if the walk returned `-1`, final `*value`).  `ENOENT`
from `opendir` is success with nothing added. -/
def get_dir_usage (dir : Str) (d : DirView) (value : Nat) : Option Str × Nat :=
  match d with
  | .enoent => (none, value)
  | .openErr reason => (some (opendirFailMsg dir reason), value)
  | .listing entries => walk_entries dir entries value

/-- The `readdir` loop of `get_dir_usage` (quota-dirsize.c:73-100):
skip `.` and `..`; skip entries whose `lstat` fails with `ENOENT`;
abort on any other `lstat` failure — note the C formats the message
with `dir`, the directory being scanned, not with the full path of
the entry; recurse via `get_dir_usage` into subdirectories, aborting on a
failed recursion; add `st_size` for every non-directory entry. -/
def walk_entries (dir : Str) (l : Entries) (value : Nat) : Option Str × Nat :=
  match l with
  | .nil => (none, value)
  | .cons name st rest =>
    if name = ['.'] ∨ name = ['.', '.'] then walk_entries dir rest value
    else
      match st with
      | .gone => walk_entries dir rest value
      | .lstatErr reason => (some (lstatFailMsg dir reason), value)
      | .nondir size => walk_entries dir rest (value + size)
      | .isdir _ d =>
        match get_dir_usage (dir ++ '/' :: name) d value with
        | (some e, v) => (some e, v)
        | (none, v) => walk_entries dir rest v

end

/-- Filesystem-model glue: the `opendir` view of the object that
`lstat` would describe as `e`.  A missing object yields `ENOENT`; a
non-directory object makes `opendir` fail with `ENOTDIR`; an object
whose metadata is unreadable makes `opendir` fail for the same
reason; a directory yields its recorded view. -/
def opendir_view : Entry → DirView
  | .gone => .enoent
  | .lstatErr reason => .openErr reason
  | .nondir _ => .openErr "Not a directory".toList
  | .isdir _ d => d

/-- C `get_usage(path, is_file, value_r, error_r)`
(quota-dirsize.c:106-124).  `obj` is what the filesystem holds at
`path`.  For `is_file` the C calls `lstat(path)`: `ENOENT` is
success with nothing added, any other failure aborts, and on success
`st_size` is added (also when the object happens to be a directory).
Otherwise the C delegates to `get_dir_usage(path)`. -/
def get_usage (path : Str) (is_file : Bool) (obj : Entry) (value : Nat) :
    Option Str × Nat :=
  if is_file then
    match obj with
    | .gone => (none, value)
    | .lstatErr reason => (some (lstatFailMsg path reason), value)
    | .nondir size => (none, value + size)
    | .isdir size _ => (none, value + size)
  else
    get_dir_usage path (opendir_view obj) value

/-- C `struct quota_count_path`: one root to measure. -/
structure QuotaCountPath where
  path : Str
  is_file : Bool
  deriving DecidableEq

/-- The first test of the `quota_count_path_add` loop
(quota-dirsize.c:134-135), `strncmp(e.path, path, strlen(e.path)) == 0`:
exactly "`e.path` is a string prefix of `path`" (when `e.path` is
longer, the comparison reaches the NUL terminator of `path` and
fails). -/
def covers (path : Str) (e : QuotaCountPath) : Bool :=
  e.path.isPrefixOf path

/-- The second test of the `quota_count_path_add` loop
(quota-dirsize.c:140-141),
`strncmp(e.path, path, path_len) == 0 && e.path[path_len] == '/'`:
the first conjunct is exactly "`path` is a string prefix of
`e.path`", and the indexing reads the char just past that prefix —
the NUL terminator (modelled by the `List.getD` default
`Char.ofNat 0`) when the two paths are equal. -/
def nested_in (path : Str) (e : QuotaCountPath) : Bool :=
  path.isPrefixOf e.path && (e.path.getD path.length (Char.ofNat 0) == '/')

/-- The scanning loop of `quota_count_path_add`
(quota-dirsize.c:133-148) over the entries still ahead of index `i`,
returning the remaining-array contents together with the flag "the
loop executed `return`" (i.e. some already-counted entry was hit;
`array_delete` removals performed up to that point are kept). -/
def add_scan (path : Str) : List QuotaCountPath → List QuotaCountPath × Bool
  | [] => ([], false)
  | e :: rest =>
    if covers path e then (e :: rest, true)
    else if nested_in path e then add_scan path rest
    else
      let r := add_scan path rest
      (e :: r.1, r.2)

/-- C `quota_count_path_add(paths, path, is_file)`
(quota-dirsize.c:126-155): run the scan; if it executed `return`,
keep the array as the scan left it (deletions performed before the
`return` are kept — `array_delete` mutates in place); otherwise
append the new entry. -/
def quota_count_path_add (paths : List QuotaCountPath) (path : Str)
    (is_file : Bool) : List QuotaCountPath :=
  match add_scan path paths with
  | (l, true) => l
  | (l, false) => l ++ [⟨path, is_file⟩]

/-- One mail namespace, as seen through the external collaborators
consumed by `get_quota_root_usage`: the visibility predicate
`quota_root_is_namespace_visible`, the storage-format query
`mail_storage_is_mailbox_file`, and the two path resolutions
(`mailbox_list_get_root_path` for the `DIR` root,
`mailbox_list_get_path` for `INBOX`), each `none` when the C lookup
reports no path. -/
structure MailNamespace where
  visible : Bool
  storage_is_file : Bool
  root_path : Option Str
  inbox_path : Option Str

/-- A quota root: for this backend only its namespace list matters. -/
structure QuotaRoot where
  namespaces : List MailNamespace

/-- The per-namespace body of the path-collection loop of
`get_quota_root_usage` (quota-dirsize.c:169-183): skip invisible
namespaces; add the directory root of the namespace with
`is_file = FALSE`; add the `INBOX` path with the storage-format
flag. -/
def ns_add_paths (paths : List QuotaCountPath) (ns : MailNamespace) :
    List QuotaCountPath :=
  if ns.visible then
    match ns.root_path with
    | some path =>
      match ns.inbox_path with
      | some inbox =>
        quota_count_path_add (quota_count_path_add paths path false) inbox
          ns.storage_is_file
      | none => quota_count_path_add paths path false
    | none =>
      match ns.inbox_path with
      | some inbox => quota_count_path_add paths inbox ns.storage_is_file
      | none => paths
  else paths

/-- The path-collection phase of `get_quota_root_usage`: fold the
loop body over the namespace list, starting from the empty array. -/
def build_paths (nss : List MailNamespace) : List QuotaCountPath :=
  nss.foldl ns_add_paths []

/-- The summing loop of `get_quota_root_usage`
(quota-dirsize.c:186-193): call `get_usage` on each collected path in
order, threading `*value_r`, and return at the first failure. -/
def sum_usage (fs : Str → Entry) : List QuotaCountPath → Nat → Option Str × Nat
  | [], value => (none, value)
  | cp :: rest, value =>
    match get_usage cp.path cp.is_file (fs cp.path) value with
    | (some e, v) => (some e, v)
    | (none, v) => sum_usage fs rest v

/-- C `get_quota_root_usage(root, value_r, error_r)`
(quota-dirsize.c:157-194): build the deduplicated path set, set
`*value_r = 0`, and sum usage over it.  `fs` maps each path to the
object the filesystem holds there. -/
def get_quota_root_usage (root : QuotaRoot) (fs : Str → Entry) :
    Option Str × Nat :=
  sum_usage fs (build_paths root.namespaces) 0

/-- The subset of C `enum quota_get_result` produced by this
backend. -/
inductive QuotaGetResult : Type where
  | unknownResource : QuotaGetResult
  | internalError : QuotaGetResult
  | limited : QuotaGetResult
  deriving DecidableEq

/-- Modelled from the spec: `QUOTA_NAME_STORAGE_BYTES`
(quota-private.h, not part of this source tree) — the storage-bytes
resource identifier that `getResource` matches case-insensitively. -/
def QUOTA_NAME_STORAGE_BYTES : Str := "storage-bytes".toList

/-- Modelled from the spec: `QUOTA_NAME_STORAGE_KILOBYTES`
(quota-private.h, not part of this source tree) — the identifier
"storage, measured in kilobytes" named by the spec for
`listSupportedResources`; in the original headers it is a string
distinct from `QUOTA_NAME_STORAGE_BYTES`. -/
def QUOTA_NAME_STORAGE_KILOBYTES : Str := "storage-kilobytes".toList

/-- Modelled from the spec: `QUOTA_UNKNOWN_RESOURCE_ERROR_STRING`
(quota-private.h, not part of this source tree) — the fixed message
accompanying the unknown-resource result. -/
def QUOTA_UNKNOWN_RESOURCE_ERROR_STRING : Str := "Unknown quota resource".toList

/-- C `strcasecmp(a, b) == 0`: case-insensitive string equality. -/
def str_casecmp_eq (a b : Str) : Bool :=
  a.map Char.toLower == b.map Char.toLower

/-- C `dirsize_quota_root_get_resources` (quota-dirsize.c:39-46): the
static NULL-terminated array `{ QUOTA_NAME_STORAGE_KILOBYTES, NULL }`,
i.e. the one-element list, for every root. -/
def dirsize_quota_root_get_resources (root : QuotaRoot) : List Str :=
  [QUOTA_NAME_STORAGE_KILOBYTES]

/-- C `dirsize_quota_get_resource` (quota-dirsize.c:196-210).
`value_r` is the caller-supplied value cell; the result is (the
`enum quota_get_result`, the final content of `*value_r`, the final
`*error_r`).  On a name mismatch the C returns without touching
`*value_r`; on a match it runs `get_quota_root_usage` (which always
rewrites `*value_r`) and maps failure to `INTERNAL_ERROR`, success
to `LIMITED`. -/
def dirsize_quota_get_resource (root : QuotaRoot) (fs : Str → Entry)
    (name : Str) (value_r : Nat) : QuotaGetResult × Nat × Option Str :=
  if str_casecmp_eq name QUOTA_NAME_STORAGE_BYTES = false then
    (.unknownResource, value_r, some QUOTA_UNKNOWN_RESOURCE_ERROR_STRING)
  else
    match get_quota_root_usage root fs with
    | (some e, v) => (.internalError, v, some e)
    | (none, v) => (.limited, v, none)

/-! ### Spec-side definitions

The definitions below state properties the spec attributes to the code;
they are compared with the source-derived functions above. -/

mutual

/-- Spec wording for C1: the byte contribution of one non-skipped
directory entry — the lstat-reported size for a non-directory entry,
the recursively computed usage for a subdirectory entry. -/
def entry_contrib : Entry → Nat
  | .gone => 0
  | .lstatErr _ => 0
  | .nondir size => size
  | .isdir _ d => view_sum d

/-- Spec wording for C1: the recursively computed usage of a
directory view. -/
def view_sum : DirView → Nat
  | .enoent => 0
  | .openErr _ => 0
  | .listing es => dir_sum es

/-- Spec wording for C1: the sum, over all directory entries other
than `.` and `..`, of the contribution of each entry. -/
def dir_sum : Entries → Nat
  | .nil => 0
  | .cons name e rest =>
    if name = ['.'] ∨ name = ['.', '.'] then dir_sum rest
    else entry_contrib e + dir_sum rest

end

mutual

/-- An entry is clean when every object below it resolves: it is a
non-directory with a reported size, or a directory that opens onto a
clean listing (no vanished objects, no failures). -/
def entry_clean : Entry → Bool
  | .gone => false
  | .lstatErr _ => false
  | .nondir _ => true
  | .isdir _ d => view_clean d

/-- A clean directory view: a listing all of whose non-skipped
entries are clean. -/
def view_clean : DirView → Bool
  | .enoent => false
  | .openErr _ => false
  | .listing es => entries_clean es

/-- All non-skipped entries of the sequence are clean (`.` and `..`
are skipped before `lstat`, so their status never matters). -/
def entries_clean : Entries → Bool
  | .nil => true
  | .cons name e rest =>
    (if name = ['.'] ∨ name = ['.', '.'] then true else entry_clean e)
      && entries_clean rest

end

mutual

/-- All OS error texts recorded anywhere below an entry. -/
def entry_reasons : Entry → List Str
  | .gone => []
  | .lstatErr r => [r]
  | .nondir _ => []
  | .isdir _ d => view_reasons d

/-- All OS error texts recorded anywhere below a directory view. -/
def view_reasons : DirView → List Str
  | .enoent => []
  | .openErr r => [r]
  | .listing es => entries_reasons es

/-- All OS error texts recorded anywhere below an entry sequence. -/
def entries_reasons : Entries → List Str
  | .nil => []
  | .cons _ e rest => entry_reasons e ++ entries_reasons rest

end

/-- Spec §3: `p` is a directory-ancestor of `q` — `q` continues `p`
with a path separator. -/
def anc (p q : Str) : Prop := p ++ ['/'] <+: q

/-- Spec §3 invariant, for one pair of entries: neither path is equal
to, nor a directory-ancestor of, the other. -/
def no_overlap (a b : QuotaCountPath) : Prop :=
  a.path ≠ b.path ∧ ¬ anc a.path b.path ∧ ¬ anc b.path a.path

/-- A PathSet built by inserting a list of candidates, in order, into
the empty set. -/
def build_set (cands : List QuotaCountPath) : List QuotaCountPath :=
  cands.foldl (fun s c => quota_count_path_add s c.path c.is_file) []

/-- Amended C2 behaviour of `quota_count_path_add`, stated without
the sequential scan: with `i` the index of the first entry whose path
is a string prefix of the new path, the result keeps entries from `i`
on untouched and removes the path-subsumed entries among the first
`i`; when the path of no entry is a prefix of the new path, all
path-subsumed entries are removed and the new entry is appended. -/
def add_amended (l : List QuotaCountPath) (p : Str) (f : Bool) :
    List QuotaCountPath :=
  match l.findIdx? (covers p) with
  | some i => (l.take i).filter (fun e => ! nested_in p e) ++ l.drop i
  | none => l.filter (fun e => ! nested_in p e) ++ [⟨p, f⟩]

/-! ### Bridge lemmas between the C tests and the spec relations -/

theorem isPrefixOf_iff {a b : Str} : a.isPrefixOf b = true ↔ a <+: b :=
  List.isPrefixOf_iff_prefix

theorem prefix_of_anc {a b : Str} (h : anc a b) : a <+: b := by
  unfold anc at h
  exact (List.prefix_append a ['/']).trans h

theorem anc_trans {a b c : Str} (h1 : anc a b) (h2 : anc b c) : anc a c := by
  unfold anc at h1 ⊢
  exact h1.trans (prefix_of_anc h2)

theorem anc_length {a b : Str} (h : anc a b) : a.length < b.length := by
  have := h.length_le
  simp at this
  omega

theorem anc_irrefl (a : Str) : ¬ anc a a := fun h => by
  have := anc_length h
  omega

theorem covers_iff {p : Str} {e : QuotaCountPath} :
    covers p e = true ↔ e.path <+: p := by
  unfold covers
  exact isPrefixOf_iff

theorem nested_in_iff {p : Str} {e : QuotaCountPath} :
    nested_in p e = true ↔ anc p e.path := by
  unfold nested_in anc
  rw [Bool.and_eq_true, isPrefixOf_iff, beq_iff_eq]
  constructor
  · rintro ⟨⟨t, ht⟩, h2⟩
    rw [← ht] at h2 ⊢
    rw [List.getD_eq_getElem?_getD, List.getElem?_append_right (Nat.le_refl _),
      Nat.sub_self] at h2
    cases t with
    | nil => exact absurd h2 (by decide)
    | cons c cs =>
      simp at h2
      subst h2
      exact ⟨cs, by simp⟩
  · rintro ⟨t, ht⟩
    rw [← ht]
    refine ⟨⟨'/' :: t, by simp⟩, ?_⟩
    rw [List.getD_eq_getElem?_getD, List.append_assoc,
      List.getElem?_append_right (Nat.le_refl _), Nat.sub_self]
    simp

/-! ### Unfolding lemmas for the walker and its spec-side companions -/

theorem walk_entries_cons_skip {dir name : Str} {st : Entry} {rest : Entries}
    {value : Nat} (h : name = ['.'] ∨ name = ['.', '.']) :
    walk_entries dir (.cons name st rest) value = walk_entries dir rest value := by
  rw [walk_entries.eq_def]
  exact if_pos h

theorem walk_entries_cons_go {dir name : Str} {st : Entry} {rest : Entries}
    {value : Nat} (h : ¬ (name = ['.'] ∨ name = ['.', '.'])) :
    walk_entries dir (.cons name st rest) value =
      match st with
      | .gone => walk_entries dir rest value
      | .lstatErr reason => (some (lstatFailMsg dir reason), value)
      | .nondir size => walk_entries dir rest (value + size)
      | .isdir _ d =>
        match get_dir_usage (dir ++ '/' :: name) d value with
        | (some e, v) => (some e, v)
        | (none, v) => walk_entries dir rest v := by
  rw [walk_entries.eq_def]
  exact if_neg h

theorem dir_sum_cons_skip {name : Str} {e : Entry} {rest : Entries}
    (h : name = ['.'] ∨ name = ['.', '.']) :
    dir_sum (.cons name e rest) = dir_sum rest := by
  rw [dir_sum.eq_def]
  exact if_pos h

theorem dir_sum_cons_go {name : Str} {e : Entry} {rest : Entries}
    (h : ¬ (name = ['.'] ∨ name = ['.', '.'])) :
    dir_sum (.cons name e rest) = entry_contrib e + dir_sum rest := by
  rw [dir_sum.eq_def]
  exact if_neg h

theorem entries_clean_cons_skip {name : Str} {e : Entry} {rest : Entries}
    (h : name = ['.'] ∨ name = ['.', '.']) :
    entries_clean (.cons name e rest) = entries_clean rest := by
  rw [entries_clean.eq_def]
  show ((if name = ['.'] ∨ name = ['.', '.'] then true else entry_clean e)
      && entries_clean rest) = entries_clean rest
  rw [if_pos h, Bool.true_and]

theorem entries_clean_cons_go {name : Str} {e : Entry} {rest : Entries}
    (h : ¬ (name = ['.'] ∨ name = ['.', '.'])) :
    entries_clean (.cons name e rest) = (entry_clean e && entries_clean rest) := by
  rw [entries_clean.eq_def]
  show ((if name = ['.'] ∨ name = ['.', '.'] then true else entry_clean e)
      && entries_clean rest) = (entry_clean e && entries_clean rest)
  rw [if_neg h]

/-! ### C1 and C6: the directory walker on clean and on vanished trees -/

theorem walk_entries_clean :
    ∀ (dir : Str) (l : Entries) (value : Nat),
      entries_clean l = true → walk_entries dir l value = (none, value + dir_sum l) :=
  walk_entries.induct
    (fun dir d value =>
      view_clean d = true → get_dir_usage dir d value = (none, value + view_sum d))
    (fun dir l value =>
      entries_clean l = true → walk_entries dir l value = (none, value + dir_sum l))
    (fun _ _ h => by simp [view_clean] at h)
    (fun _ _ _ h => by simp [view_clean] at h)
    (fun dir value entries ih h => by
      simp only [view_clean] at h
      simpa [get_dir_usage, view_sum] using ih h)
    (fun dir value _ => by simp [walk_entries, dir_sum])
    (fun dir value name st rest hname ih h => by
      rw [entries_clean_cons_skip hname] at h
      rw [walk_entries_cons_skip hname, dir_sum_cons_skip hname]
      exact ih h)
    (fun dir value name rest hname ih h => by
      rw [entries_clean_cons_go hname] at h
      simp [entry_clean] at h)
    (fun dir value name rest hname reason h => by
      rw [entries_clean_cons_go hname] at h
      simp [entry_clean] at h)
    (fun dir value name rest hname size ih h => by
      rw [entries_clean_cons_go hname] at h
      simp only [entry_clean, Bool.true_and] at h
      rw [walk_entries_cons_go hname, dir_sum_cons_go hname]
      show walk_entries dir rest (value + size) = _
      rw [ih h]
      simp [entry_contrib, Nat.add_assoc])
    (fun dir value name rest hname a d e v hget ih1 h => by
      rw [entries_clean_cons_go hname] at h
      simp only [entry_clean, Bool.and_eq_true] at h
      rw [ih1 h.1] at hget
      simp at hget)
    (fun dir value name rest hname a d v hget ih1 ih2 h => by
      rw [entries_clean_cons_go hname] at h
      simp only [entry_clean, Bool.and_eq_true] at h
      have hv := ih1 h.1
      rw [hv] at hget
      injection hget with h1 h2
      subst h2
      rw [walk_entries_cons_go hname, dir_sum_cons_go hname]
      simp [hv, ih2 h.2, entry_contrib, Nat.add_assoc])

/-- C1: for every directory whose tree is clean (every entry other
than `.` and `..` resolves and no error occurs), `get_dir_usage`
succeeds and adds to the accumulator exactly the sum, over all
directory entries other than `.` and `..`, of the lstat-reported
size of each non-directory entry (symlinks by the size of the link
object — an `Entry.nondir` carries precisely the `lstat` `st_size`,
targets are never followed) plus the recursively computed usage of
each subdirectory entry; `dir_sum` is that sum, stated in the words
of the spec. -/
theorem c1_get_dir_usage_sums_clean_tree (dir : Str) (es : Entries) (value : Nat)
    (h : entries_clean es = true) :
    get_dir_usage dir (.listing es) value = (none, value + dir_sum es) := by
  simpa [get_dir_usage] using walk_entries_clean dir es value h

/-- C1 witness: a directory holding only files of 100 and 200 bytes
yields 300. -/
theorem c1_witness :
    entries_clean (.cons "f1".toList (.nondir 100)
      (.cons "f2".toList (.nondir 200) .nil)) = true ∧
    get_dir_usage "/mail".toList (.listing (.cons "f1".toList (.nondir 100)
      (.cons "f2".toList (.nondir 200) .nil))) 0 = (none, 300) :=
  ⟨by decide,
    c1_get_dir_usage_sums_clean_tree "/mail".toList
      (.cons "f1".toList (.nondir 100) (.cons "f2".toList (.nondir 200) .nil)) 0
      (by decide)⟩

/-- C6: a directory whose `opendir` reports `ENOENT` contributes
nothing and is not an error, and `get_usage` on an `is_file` path
whose `lstat` reports `ENOENT` likewise returns success with the
accumulator unchanged. -/
theorem c6_enoent_contributes_zero :
    (∀ (dir : Str) (value : Nat), get_dir_usage dir .enoent value = (none, value)) ∧
    (∀ (path : Str) (value : Nat), get_usage path true .gone value = (none, value)) :=
  ⟨fun _ _ => rfl, fun _ _ => rfl⟩

/-! ### Lemmas about the scanning loop of quota_count_path_add -/

theorem add_scan_sublist (p : Str) (l : List QuotaCountPath) :
    (add_scan p l).1.Sublist l := by
  induction l with
  | nil => simp [add_scan]
  | cons e rest ih =>
    rw [add_scan]
    by_cases h1 : covers p e
    · simp only [if_pos h1]
      exact List.Sublist.refl _
    · rw [if_neg h1]
      by_cases h2 : nested_in p e
      · rw [if_pos h2]
        exact ih.trans (List.sublist_cons_self e rest)
      · rw [if_neg h2]
        exact List.Sublist.cons₂ e ih

theorem add_scan_false_mem (p : Str) (l : List QuotaCountPath)
    (hf : (add_scan p l).2 = false) :
    ∀ e ∈ (add_scan p l).1, covers p e = false ∧ nested_in p e = false := by
  induction l with
  | nil => simp [add_scan]
  | cons e rest ih =>
    rw [add_scan] at hf ⊢
    by_cases h1 : covers p e
    · rw [if_pos h1] at hf
      exact absurd hf (by simp)
    · rw [if_neg h1] at hf ⊢
      by_cases h2 : nested_in p e
      · rw [if_pos h2] at hf ⊢
        exact ih hf
      · rw [if_neg h2] at hf ⊢
        intro x hx
        rcases List.mem_cons.mp hx with rfl | hx
        · exact ⟨Bool.eq_false_iff.mpr h1, Bool.eq_false_iff.mpr h2⟩
        · exact ih hf x hx

theorem add_scan_nodel (p : Str) (l : List QuotaCountPath)
    (h : ∀ e ∈ l, nested_in p e = false) :
    (add_scan p l).1 = l := by
  induction l with
  | nil => simp [add_scan]
  | cons e rest ih =>
    rw [add_scan]
    by_cases h1 : covers p e
    · rw [if_pos h1]
    · rw [if_neg h1, if_neg (by simp [h e (List.mem_cons_self e rest)])]
      have := ih fun x hx => h x (List.mem_cons_of_mem e hx)
      simp [this]

theorem add_scan_abort_iff (p : Str) (l : List QuotaCountPath) :
    (add_scan p l).2 = l.any (covers p) := by
  induction l with
  | nil => simp [add_scan]
  | cons e rest ih =>
    rw [add_scan, List.any_cons]
    by_cases h1 : covers p e
    · rw [if_pos h1, h1]
      simp
    · rw [if_neg h1, Bool.eq_false_iff.mpr h1, Bool.false_or]
      by_cases h2 : nested_in p e
      · rw [if_pos h2]
        exact ih
      · rw [if_neg h2]
        exact ih

theorem add_scan_nocover (p : Str) (l : List QuotaCountPath)
    (h : ∀ e ∈ l, covers p e = false) :
    add_scan p l = (l.filter (fun e => ! nested_in p e), false) := by
  induction l with
  | nil => simp [add_scan]
  | cons e rest ih =>
    have he : covers p e = false := h e (List.mem_cons_self e rest)
    have hrest := ih fun x hx => h x (List.mem_cons_of_mem e hx)
    rw [add_scan, if_neg (by simp [he])]
    by_cases h2 : nested_in p e
    · rw [if_pos h2, hrest, List.filter_cons_of_neg (by simp [h2])]
    · rw [if_neg h2, List.filter_cons_of_pos (by simp [Bool.eq_false_iff.mpr h2]),
        hrest]

/-! ### Behaviour of quota_count_path_add on one leading entry -/

theorem add_cons_abort {p : Str} {f : Bool} {e : QuotaCountPath}
    {rest : List QuotaCountPath} (h1 : covers p e = true) :
    quota_count_path_add (e :: rest) p f = e :: rest := by
  unfold quota_count_path_add
  rw [add_scan, if_pos h1]

theorem add_cons_del {p : Str} {f : Bool} {e : QuotaCountPath}
    {rest : List QuotaCountPath} (h1 : covers p e = false)
    (h2 : nested_in p e = true) :
    quota_count_path_add (e :: rest) p f = quota_count_path_add rest p f := by
  unfold quota_count_path_add
  rw [add_scan, if_neg (by simp [h1]), if_pos h2]

theorem add_cons_keep {p : Str} {f : Bool} {e : QuotaCountPath}
    {rest : List QuotaCountPath} (h1 : covers p e = false)
    (h2 : nested_in p e = false) :
    quota_count_path_add (e :: rest) p f = e :: quota_count_path_add rest p f := by
  unfold quota_count_path_add
  rw [add_scan, if_neg (by simp [h1]), if_neg (by simp [h2])]
  rcases hs : add_scan p rest with ⟨l, ab⟩
  cases ab <;> simp

/-! ### C3: every reachable PathSet satisfies the no-overlap invariant -/

theorem no_overlap_of_checks {p : Str} {f : Bool} {e : QuotaCountPath}
    (h1 : covers p e = false) (h2 : nested_in p e = false) :
    no_overlap e ⟨p, f⟩ := by
  have hnp : ¬ (e.path <+: p) := fun hp => by
    rw [covers_iff.mpr hp] at h1
    exact Bool.noConfusion h1
  refine ⟨fun he => hnp (he ▸ List.prefix_rfl), fun ha => hnp (prefix_of_anc ha),
    fun ha => ?_⟩
  rw [nested_in_iff.mpr ha] at h2
  exact Bool.noConfusion h2

theorem no_overlap_symm {a b : QuotaCountPath} (h : no_overlap a b) :
    no_overlap b a :=
  ⟨fun he => h.1 he.symm, h.2.2, h.2.1⟩

theorem add_preserves_no_overlap {l : List QuotaCountPath} {p : Str} {f : Bool}
    (h : l.Pairwise no_overlap) :
    (quota_count_path_add l p f).Pairwise no_overlap := by
  have hsub := add_scan_sublist p l
  unfold quota_count_path_add
  rcases hs : add_scan p l with ⟨l', ab⟩
  rw [hs] at hsub
  cases ab
  · have hmem := add_scan_false_mem p l (by rw [hs])
    rw [hs] at hmem
    refine List.pairwise_append.mpr ⟨h.sublist hsub, by simp, ?_⟩
    intro a ha b hb
    rw [List.mem_singleton.mp hb]
    exact no_overlap_of_checks (hmem a ha).1 (hmem a ha).2
  · exact h.sublist hsub

theorem build_set_pairwise (cands : List QuotaCountPath) :
    (build_set cands).Pairwise no_overlap := by
  unfold build_set
  have key : ∀ (c : List QuotaCountPath) (s : List QuotaCountPath),
      s.Pairwise no_overlap →
      (c.foldl (fun s c => quota_count_path_add s c.path c.is_file) s).Pairwise
        no_overlap := by
    intro c
    induction c with
    | nil => exact fun s hs => hs
    | cons x rest ih => exact fun s hs => ih _ (add_preserves_no_overlap hs)
  exact key cands [] (by simp)

/-- C3: every PathSet reachable from the empty set by `add`
operations satisfies the spec invariant — any two entries at distinct
positions have paths that are neither equal nor directory-ancestors
of one another; and adding the same path twice starting from the
empty set leaves exactly the one entry for it. -/
theorem c3_pathset_invariant :
    (∀ cands : List QuotaCountPath, (build_set cands).Pairwise no_overlap) ∧
    (∀ (p : Str) (f : Bool), build_set [⟨p, f⟩, ⟨p, f⟩] = [⟨p, f⟩]) := by
  refine ⟨build_set_pairwise, fun p f => ?_⟩
  have h0 : quota_count_path_add [] p f = [⟨p, f⟩] := rfl
  have hc : covers p (⟨p, f⟩ : QuotaCountPath) = true :=
    covers_iff.mpr List.prefix_rfl
  show quota_count_path_add (quota_count_path_add [] p f) p f = [⟨p, f⟩]
  rw [h0, add_cons_abort hc]

/-! ### C2: the sequential semantics of the scan versus the claimed one -/

theorem amended_cons_abort {p : Str} {f : Bool} {e : QuotaCountPath}
    {rest : List QuotaCountPath} (h1 : covers p e = true) :
    add_amended (e :: rest) p f = e :: rest := by
  unfold add_amended
  rw [List.findIdx?_cons, if_pos h1]
  simp

theorem amended_cons_del {p : Str} {f : Bool} {e : QuotaCountPath}
    {rest : List QuotaCountPath} (h1 : covers p e = false)
    (h2 : nested_in p e = true) :
    add_amended (e :: rest) p f = add_amended rest p f := by
  unfold add_amended
  rw [List.findIdx?_cons, if_neg (by simp [h1]), List.findIdx?_succ]
  rcases hidx : List.findIdx? (covers p) rest with _ | i
  · rw [Option.map_none', List.filter_cons_of_neg (by simp [h2])]
  · rw [Option.map_some']
    show List.filter (fun e => ! nested_in p e) (List.take (i + 1) (e :: rest))
        ++ List.drop (i + 1) (e :: rest) =
      List.filter (fun e => ! nested_in p e) (List.take i rest) ++ List.drop i rest
    rw [List.take_succ_cons, List.drop_succ_cons,
      List.filter_cons_of_neg (by simp [h2])]

theorem amended_cons_keep {p : Str} {f : Bool} {e : QuotaCountPath}
    {rest : List QuotaCountPath} (h1 : covers p e = false)
    (h2 : nested_in p e = false) :
    add_amended (e :: rest) p f = e :: add_amended rest p f := by
  unfold add_amended
  rw [List.findIdx?_cons, if_neg (by simp [h1]), List.findIdx?_succ]
  rcases hidx : List.findIdx? (covers p) rest with _ | i
  · rw [Option.map_none', List.filter_cons_of_pos (by simp [h2])]
    simp
  · rw [Option.map_some']
    show List.filter (fun e => ! nested_in p e) (List.take (i + 1) (e :: rest))
        ++ List.drop (i + 1) (e :: rest) =
      e :: (List.filter (fun e => ! nested_in p e) (List.take i rest)
        ++ List.drop i rest)
    rw [List.take_succ_cons, List.drop_succ_cons,
      List.filter_cons_of_pos (by simp [h2])]
    simp

/-- C2 counterexample: from the (even reachable, invariant-satisfying)
state `[{/ab/c}, {/a}]`, adding path `/ab` hits case (1) of the claim
(the path of `{/a}` is a string prefix of `/ab`), so per the claim the set
must stay unchanged; the code first deletes `{/ab/c}` (subsumed by
`/ab`) and only then aborts, leaving `[{/a}]`. -/
theorem c2_counterexample :
    ((⟨"/a".toList, false⟩ : QuotaCountPath) ∈
        ([⟨"/ab/c".toList, false⟩, ⟨"/a".toList, false⟩] : List QuotaCountPath) ∧
      covers "/ab".toList ⟨"/a".toList, false⟩ = true) ∧
    quota_count_path_add [⟨"/ab/c".toList, false⟩, ⟨"/a".toList, false⟩]
        "/ab".toList false = [⟨"/a".toList, false⟩] ∧
    quota_count_path_add [⟨"/ab/c".toList, false⟩, ⟨"/a".toList, false⟩]
        "/ab".toList false ≠
      [⟨"/ab/c".toList, false⟩, ⟨"/a".toList, false⟩] := by decide

/-- C2 amended: `quota_count_path_add` behaves as one left-to-right
scan — with `i` the position of the first existing entry whose path
is a string prefix of the new path (no separator-boundary
requirement), the insertion is aborted there, keeping the removals
already performed among the first `i` entries and all entries from
`i` on; when no such entry exists, every entry whose path has the new
path as a prefix over the full length of the new path followed by
`/` is
removed and `{path, is_file}` is appended. -/
theorem c2_add_amended (l : List QuotaCountPath) (p : Str) (f : Bool) :
    quota_count_path_add l p f = add_amended l p f := by
  induction l with
  | nil => simp [quota_count_path_add, add_scan, add_amended]
  | cons e rest ih =>
    by_cases h1 : covers p e
    · rw [add_cons_abort h1, amended_cons_abort h1]
    · have h1f : covers p e = false := Bool.eq_false_iff.mpr h1
      by_cases h2 : nested_in p e
      · rw [add_cons_del h1f h2, amended_cons_del h1f h2, ih]
      · have h2f : nested_in p e = false := Bool.eq_false_iff.mpr h2
        rw [add_cons_keep h1f h2f, amended_cons_keep h1f h2f, ih]

/-! ### C5: membership characterisation of built PathSets

For candidate lists whose prefix relations all sit on a `/` boundary
and whose paths are pairwise distinct, the set built by successive
`add` calls contains exactly the candidates with no strict
directory-ancestor among the candidates — independently of order. -/

theorem add_char {P S : List QuotaCountPath} {e : QuotaCountPath}
    (hchar : ∀ x, x ∈ S ↔ x ∈ P ∧ ∀ q ∈ P, ¬ anc q.path x.path)
    (hfresh : e.path ∉ P.map QuotaCountPath.path)
    (hb : ∀ q ∈ P, q.path <+: e.path → anc q.path e.path) :
    ∀ x, x ∈ quota_count_path_add S e.path e.is_file ↔
      x ∈ P ++ [e] ∧ ∀ q ∈ P ++ [e], ¬ anc q.path x.path := by
  have hSP : ∀ x ∈ S, x ∈ P := fun x hx => ((hchar x).mp hx).1
  have hSnoanc : ∀ x ∈ S, ∀ q ∈ P, ¬ anc q.path x.path :=
    fun x hx => ((hchar x).mp hx).2
  by_cases hcov : ∃ q ∈ S, covers e.path q = true
  · obtain ⟨q0, hq0S, hq0c⟩ := hcov
    have hq0P := hSP q0 hq0S
    have hq0ne : q0.path ≠ e.path := fun h =>
      hfresh (h ▸ List.mem_map_of_mem _ hq0P)
    have hq0anc : anc q0.path e.path := hb q0 hq0P (covers_iff.mp hq0c)
    have hnodel : ∀ r ∈ S, nested_in e.path r = false := by
      intro r hr
      by_contra hne
      simp only [Bool.not_eq_false] at hne
      exact hSnoanc r hr q0 hq0P (anc_trans hq0anc (nested_in_iff.mp hne))
    have hres : quota_count_path_add S e.path e.is_file = S := by
      unfold quota_count_path_add
      rcases hs : add_scan e.path S with ⟨l, ab⟩
      have h1 : l = S := by
        have := add_scan_nodel e.path S hnodel
        rw [hs] at this
        exact this
      have h2 : ab = true := by
        have := add_scan_abort_iff e.path S
        rw [hs] at this
        simp only at this
        rw [this]
        exact List.any_eq_true.mpr ⟨q0, hq0S, hq0c⟩
      subst h1
      subst h2
      rfl
    rw [hres]
    intro x
    constructor
    · intro hx
      refine ⟨List.mem_append_left _ (hSP x hx), ?_⟩
      intro q hq
      rcases List.mem_append.mp hq with hqP | hqe
      · exact hSnoanc x hx q hqP
      · obtain rfl := List.mem_singleton.mp hqe
        intro hanc
        exact hSnoanc x hx q0 hq0P (anc_trans hq0anc hanc)
    · rintro ⟨hx, hno⟩
      rcases List.mem_append.mp hx with hxP | hxe
      · exact (hchar x).mpr ⟨hxP, fun q hq => hno q (List.mem_append_left _ hq)⟩
      · obtain rfl := List.mem_singleton.mp hxe
        exact absurd hq0anc (hno q0 (List.mem_append_left _ hq0P))
  · push_neg at hcov
    have hcovf : ∀ q ∈ S, covers e.path q = false := fun q hq =>
      Bool.eq_false_iff.mpr (hcov q hq)
    have hres : quota_count_path_add S e.path e.is_file =
        S.filter (fun r => ! nested_in e.path r) ++ [⟨e.path, e.is_file⟩] := by
      unfold quota_count_path_add
      rw [add_scan_nocover e.path S hcovf]
    have hee : (⟨e.path, e.is_file⟩ : QuotaCountPath) = e := rfl
    rw [hres, hee]
    have hkey : ∀ n, ∀ q ∈ P, q.path.length ≤ n → ¬ anc q.path e.path := by
      intro n
      induction n with
      | zero =>
        intro q hq hlen hanc
        by_cases hqS : q ∈ S
        · exact absurd (covers_iff.mpr (prefix_of_anc hanc))
            (by simp [hcovf q hqS])
        · have hnc : ¬ (q ∈ P ∧ ∀ r ∈ P, ¬ anc r.path q.path) := fun hc =>
            hqS ((hchar q).mpr hc)
          push_neg at hnc
          obtain ⟨r, hrP, hr⟩ := hnc hq
          have := anc_length hr
          omega
      | succ n ih =>
        intro q hq hlen hanc
        by_cases hqS : q ∈ S
        · exact absurd (covers_iff.mpr (prefix_of_anc hanc))
            (by simp [hcovf q hqS])
        · have hnc : ¬ (q ∈ P ∧ ∀ r ∈ P, ¬ anc r.path q.path) := fun hc =>
            hqS ((hchar q).mpr hc)
          push_neg at hnc
          obtain ⟨r, hrP, hr⟩ := hnc hq
          have hlt := anc_length hr
          exact ih r hrP (by omega) (anc_trans hr hanc)
    have hnoancPe : ∀ q ∈ P, ¬ anc q.path e.path := fun q hq =>
      hkey q.path.length q hq (Nat.le_refl _)
    intro x
    rw [List.mem_append, List.mem_filter, List.mem_singleton]
    constructor
    · rintro (⟨hxS, hxn⟩ | rfl)
      · refine ⟨List.mem_append_left _ (hSP x hxS), ?_⟩
        intro q hq
        rcases List.mem_append.mp hq with hqP | hqe
        · exact hSnoanc x hxS q hqP
        · obtain rfl := List.mem_singleton.mp hqe
          intro hanc
          rw [nested_in_iff.mpr hanc] at hxn
          simp at hxn
      · refine ⟨List.mem_append_right _ (List.mem_singleton_self _), ?_⟩
        intro q hq
        rcases List.mem_append.mp hq with hqP | hqe
        · exact hnoancPe q hqP
        · obtain rfl := List.mem_singleton.mp hqe
          exact anc_irrefl _
    · rintro ⟨hx, hno⟩
      rcases List.mem_append.mp hx with hxP | hxe
      · left
        refine ⟨(hchar x).mpr
          ⟨hxP, fun q hq => hno q (List.mem_append_left _ hq)⟩, ?_⟩
        have hne : ¬ anc e.path x.path :=
          hno e (List.mem_append_right _ (List.mem_singleton_self e))
        cases hbv : nested_in e.path x with
        | false => rfl
        | true => exact absurd (nested_in_iff.mp hbv) hne
      · right
        exact List.mem_singleton.mp hxe

theorem addAll_char :
    ∀ (c P S : List QuotaCountPath),
      ((P ++ c).map QuotaCountPath.path).Nodup →
      (∀ a ∈ P ++ c, ∀ b ∈ P ++ c,
        a.path <+: b.path → a.path = b.path ∨ anc a.path b.path) →
      (∀ x, x ∈ S ↔ x ∈ P ∧ ∀ q ∈ P, ¬ anc q.path x.path) →
      ∀ x, x ∈ c.foldl (fun s c => quota_count_path_add s c.path c.is_file) S ↔
        x ∈ P ++ c ∧ ∀ q ∈ P ++ c, ¬ anc q.path x.path := by
  intro c
  induction c with
  | nil =>
    intro P S hn hb hchar x
    simpa using hchar x
  | cons e crest ih =>
    intro P S hn hb hchar x
    have hfresh : e.path ∉ P.map QuotaCountPath.path := by
      intro hmem
      obtain ⟨q, hqP, hq⟩ := List.mem_map.mp hmem
      have : ((P ++ e :: crest).map QuotaCountPath.path).Nodup := hn
      rw [List.map_append] at this
      have hdis := (List.nodup_append.mp this).2.2
      exact hdis (List.mem_map_of_mem _ hqP)
        (by rw [hq]; exact List.mem_cons_self _ _)
    have hbPe : ∀ q ∈ P, q.path <+: e.path → anc q.path e.path := by
      intro q hq hpre
      rcases hb q (List.mem_append_left _ hq) e
        (List.mem_append_right _ (List.mem_cons_self _ _)) hpre with heq | hanc
      · exact absurd (heq ▸ List.mem_map_of_mem QuotaCountPath.path hq) hfresh
      · exact hanc
    have hstep := add_char hchar hfresh hbPe
    have hmain := ih (P ++ [e]) (quota_count_path_add S e.path e.is_file)
      (by simpa using hn) (by simpa using hb) hstep x
    simpa using hmain

theorem build_set_char (L : List QuotaCountPath)
    (hn : (L.map QuotaCountPath.path).Nodup)
    (hb : ∀ a ∈ L, ∀ b ∈ L,
      a.path <+: b.path → a.path = b.path ∨ anc a.path b.path) :
    ∀ x, x ∈ build_set L ↔ x ∈ L ∧ ∀ q ∈ L, ¬ anc q.path x.path := by
  have h := addAll_char L [] [] (by simpa using hn) (by simpa using hb)
    (by simp)
  intro x
  simpa using h x

instance (p q : Str) : Decidable (anc p q) := by
  unfold anc
  infer_instance

/-- C5 counterexample: the candidate multiset {(/ab, dir), (/a, dir)}
inserted in its two orders.  `/a` is a bare string prefix of `/ab`
with no `/` boundary, so inserting `/a` first suppresses `/ab`
(claim case 1), while inserting `/ab` first keeps both: the two
final sets differ, refuting order-independence for arbitrary
multisets. -/
theorem c5_counterexample :
    ([⟨"/ab".toList, false⟩, ⟨"/a".toList, false⟩] :
        List QuotaCountPath).Perm
      [⟨"/a".toList, false⟩, ⟨"/ab".toList, false⟩] ∧
    build_set [⟨"/a".toList, false⟩, ⟨"/ab".toList, false⟩] =
      [⟨"/a".toList, false⟩] ∧
    (⟨"/ab".toList, false⟩ : QuotaCountPath) ∈
      build_set [⟨"/ab".toList, false⟩, ⟨"/a".toList, false⟩] ∧
    (⟨"/ab".toList, false⟩ : QuotaCountPath) ∉
      build_set [⟨"/a".toList, false⟩, ⟨"/ab".toList, false⟩] := by decide

/-- C5 amended: for candidate lists with pairwise distinct paths in
which every string-prefix relation between two candidate paths sits
on a `/` boundary (no bare-prefix pairs such as `/a`, `/ab` — the
asymmetric case the spec flags in §4.1), any two insertion orders
build PathSets with exactly the same entries. -/
theorem c5_insertion_order_independent (L1 L2 : List QuotaCountPath)
    (hperm : L1.Perm L2)
    (hn : (L1.map QuotaCountPath.path).Nodup)
    (hb : ∀ a ∈ L1, ∀ b ∈ L1,
      a.path <+: b.path → a.path = b.path ∨ anc a.path b.path) :
    ∀ x, x ∈ build_set L1 ↔ x ∈ build_set L2 := by
  have hn2 : (L2.map QuotaCountPath.path).Nodup :=
    ((hperm.map QuotaCountPath.path).nodup_iff).mp hn
  have hb2 : ∀ a ∈ L2, ∀ b ∈ L2,
      a.path <+: b.path → a.path = b.path ∨ anc a.path b.path :=
    fun a ha b hbm => hb a (hperm.mem_iff.mpr ha) b (hperm.mem_iff.mpr hbm)
  intro x
  rw [build_set_char L1 hn hb x, build_set_char L2 hn2 hb2 x]
  constructor
  · rintro ⟨h1, h2⟩
    exact ⟨hperm.mem_iff.mp h1, fun q hq => h2 q (hperm.mem_iff.mpr hq)⟩
  · rintro ⟨h1, h2⟩
    exact ⟨hperm.mem_iff.mpr h1, fun q hq => h2 q (hperm.mem_iff.mp hq)⟩

/-- C5 witness: {(/a, dir), (/a/b, file)} in both orders — all prefix
relations sit on a `/` boundary — and the entry {/a} lies in both
final sets. -/
theorem c5_witness :
    ([⟨"/a".toList, false⟩, ⟨"/a/b".toList, true⟩] :
        List QuotaCountPath).Perm
      [⟨"/a/b".toList, true⟩, ⟨"/a".toList, false⟩] ∧
    (([⟨"/a".toList, false⟩, ⟨"/a/b".toList, true⟩] :
        List QuotaCountPath).map QuotaCountPath.path).Nodup ∧
    ((⟨"/a".toList, false⟩ : QuotaCountPath) ∈
        build_set [⟨"/a".toList, false⟩, ⟨"/a/b".toList, true⟩] ↔
      (⟨"/a".toList, false⟩ : QuotaCountPath) ∈
        build_set [⟨"/a/b".toList, true⟩, ⟨"/a".toList, false⟩]) :=
  ⟨by decide, by decide,
    c5_insertion_order_independent
      [⟨"/a".toList, false⟩, ⟨"/a/b".toList, true⟩]
      [⟨"/a/b".toList, true⟩, ⟨"/a".toList, false⟩]
      (by decide) (by decide) (by decide) ⟨"/a".toList, false⟩⟩

/-! ### C4: the summing loop aborts at the first fatal error -/

theorem sum_usage_append (fs : Str → Entry) (l1 l2 : List QuotaCountPath)
    (v n : Nat) (h : sum_usage fs l1 v = (none, n)) :
    sum_usage fs (l1 ++ l2) v = sum_usage fs l2 n := by
  induction l1 generalizing v with
  | nil =>
    rw [sum_usage] at h
    injection h with h1 h2
    subst h2
    rfl
  | cons cp rest ih =>
    rw [sum_usage] at h
    rw [List.cons_append, sum_usage]
    rcases hg : get_usage cp.path cp.is_file (fs cp.path) v with ⟨err, v'⟩
    rw [hg] at h
    cases err with
    | some e =>
      have h' : ((some e : Option Str), v') = ((none : Option Str), n) := h
      simp at h'
    | none =>
      have h' : sum_usage fs rest v' = (none, n) := h
      show sum_usage fs (rest ++ l2) v' = sum_usage fs l2 n
      exact ih v' h'

/-- C4: `get_quota_root_usage` walks the deduplicated path list in
order; as soon as the measurement of one path fails, that error —
and the first one only — is returned, and the result is a failure
carrying no
success value whatsoever: no partial total is exposed through the
success channel of the function. -/
theorem c4_first_error_aborts (root : QuotaRoot) (fs : Str → Entry)
    (l1 l2 : List QuotaCountPath) (pb : QuotaCountPath) (v1 : Nat) (e : Str)
    (hsplit : build_paths root.namespaces = l1 ++ pb :: l2)
    (hok : sum_usage fs l1 0 = (none, v1))
    (herr : (get_usage pb.path pb.is_file (fs pb.path) v1).1 = some e) :
    (get_quota_root_usage root fs).1 = some e ∧
    ∀ n, get_quota_root_usage root fs ≠ (none, n) := by
  have h1 : get_quota_root_usage root fs = sum_usage fs (l1 ++ pb :: l2) 0 := by
    unfold get_quota_root_usage
    rw [hsplit]
  rw [h1, sum_usage_append fs l1 (pb :: l2) 0 v1 hok, sum_usage]
  rcases hg : get_usage pb.path pb.is_file (fs pb.path) v1 with ⟨err, v'⟩
  rw [hg] at herr
  simp only at herr
  subst herr
  exact ⟨rfl, by simp⟩

/-- Test fixture: one visible namespace whose directory root resolves
to `/r` and which reports no separate INBOX path. -/
def root_one : QuotaRoot :=
  ⟨[⟨true, false, some "/r".toList, none⟩]⟩

/-- Test fixture: a filesystem in which the object at `/r` is a
directory whose `opendir` fails with `Permission denied`, and every
other path is absent. -/
def fs_perm_denied : Str → Entry := fun p =>
  if p = "/r".toList then .isdir 4096 (.openErr "Permission denied".toList)
  else .gone

/-- C4 witness: with the deduplicated path list `[{/r}]` and a
permission-denied root, the scan returns exactly that error and no
success value. -/
theorem c4_witness :
    build_paths root_one.namespaces = [] ++ ⟨"/r".toList, false⟩ :: [] ∧
    sum_usage fs_perm_denied [] 0 = (none, 0) ∧
    (get_usage "/r".toList false (fs_perm_denied "/r".toList) 0).1 =
      some (opendirFailMsg "/r".toList "Permission denied".toList) ∧
    (get_quota_root_usage root_one fs_perm_denied).1 =
      some (opendirFailMsg "/r".toList "Permission denied".toList) :=
  ⟨by decide, rfl, by decide,
    (c4_first_error_aborts root_one fs_perm_denied [] [] ⟨"/r".toList, false⟩ 0
      (opendirFailMsg "/r".toList "Permission denied".toList)
      (by decide) rfl (by decide)).1⟩

/-! ### C7: the shape of fatal error messages -/

theorem get_dir_usage_error_shape :
    ∀ (dir : Str) (d : DirView) (value : Nat) (m : Str),
      (get_dir_usage dir d value).1 = some m →
      ∃ p r, dir <+: p ∧ r ∈ view_reasons d ∧
        (m = opendirFailMsg p r ∨ m = lstatFailMsg p r) :=
  get_dir_usage.induct
    (fun dir d value => ∀ m, (get_dir_usage dir d value).1 = some m →
      ∃ p r, dir <+: p ∧ r ∈ view_reasons d ∧
        (m = opendirFailMsg p r ∨ m = lstatFailMsg p r))
    (fun dir l value => ∀ m, (walk_entries dir l value).1 = some m →
      ∃ p r, dir <+: p ∧ r ∈ entries_reasons l ∧
        (m = opendirFailMsg p r ∨ m = lstatFailMsg p r))
    (fun dir value m h => by simp [get_dir_usage] at h)
    (fun dir value reason m h => by
      have h' : opendirFailMsg dir reason = m := by
        simpa [get_dir_usage] using h
      exact ⟨dir, reason, List.prefix_rfl, by simp [view_reasons],
        Or.inl h'.symm⟩)
    (fun dir value entries ih m h => by
      obtain ⟨p, r, hp, hr, hs⟩ := ih m (by simpa [get_dir_usage] using h)
      exact ⟨p, r, hp, by simpa [view_reasons] using hr, hs⟩)
    (fun dir value m h => by simp [walk_entries] at h)
    (fun dir value name st rest hname ih m h => by
      rw [walk_entries_cons_skip hname] at h
      obtain ⟨p, r, hp, hr, hs⟩ := ih m h
      exact ⟨p, r, hp,
        show r ∈ entry_reasons st ++ entries_reasons rest from
          List.mem_append_right _ hr, hs⟩)
    (fun dir value name rest hname ih m h => by
      rw [walk_entries_cons_go hname] at h
      obtain ⟨p, r, hp, hr, hs⟩ := ih m h
      exact ⟨p, r, hp, List.mem_append_right _ hr, hs⟩)
    (fun dir value name rest hname reason m h => by
      rw [walk_entries_cons_go hname] at h
      have h' : lstatFailMsg dir reason = m := by simpa using h
      refine ⟨dir, reason, List.prefix_rfl, ?_, Or.inr h'.symm⟩
      show reason ∈ entry_reasons (.lstatErr reason) ++ entries_reasons rest
      exact List.mem_append_left _ (by simp [entry_reasons]))
    (fun dir value name rest hname size ih m h => by
      rw [walk_entries_cons_go hname] at h
      obtain ⟨p, r, hp, hr, hs⟩ := ih m h
      exact ⟨p, r, hp, List.mem_append_right _ hr, hs⟩)
    (fun dir value name rest hname a d e v hget ih1 m h => by
      rw [walk_entries_cons_go hname] at h
      have h' : (match get_dir_usage (dir ++ '/' :: name) d value with
          | (some e, v) => ((some e : Option Str), v)
          | (none, v) => walk_entries dir rest v).1 = some m := h
      rw [hget] at h'
      have hm : e = m := by simpa using h'
      subst hm
      obtain ⟨p, r, hp, hr, hs⟩ := ih1 e (by rw [hget])
      exact ⟨p, r, List.IsPrefix.trans ⟨'/' :: name, rfl⟩ hp,
        List.mem_append_left _ hr, hs⟩)
    (fun dir value name rest hname a d v hget ih1 ih2 m h => by
      rw [walk_entries_cons_go hname] at h
      have h' : (match get_dir_usage (dir ++ '/' :: name) d value with
          | (some e, v) => ((some e : Option Str), v)
          | (none, v) => walk_entries dir rest v).1 = some m := h
      rw [hget] at h'
      obtain ⟨p, r, hp, hr, hs⟩ := ih2 m h'
      exact ⟨p, r, hp, List.mem_append_right _ hr, hs⟩)

/-- C7 counterexample: when `lstat("/a/x")` fails (here with
`Permission denied`), the C formats the message with `dir` — the
directory being scanned — so the fatal error message of the walk is
`lstat(/a) failed: Permission denied`; the path of the offending
filesystem object, `/a/x`, appears nowhere in that message. -/
theorem c7_counterexample :
    (get_dir_usage "/a".toList
        (.listing (.cons "x".toList
          (.lstatErr "Permission denied".toList) .nil)) 0).1 =
      some (lstatFailMsg "/a".toList "Permission denied".toList) ∧
    ¬ ("/a/x".toList <:+:
        lstatFailMsg "/a".toList "Permission denied".toList) := by decide

/-- C7 amended: every fatal error the walk produces is of the form
`opendir(p) failed: reason` or `lstat(p) failed: reason`, where
`reason` is an OS error text recorded in the scanned tree and `p` is
a path extending the scanned root — for `opendir` failures the
directory that failed to open, but for `lstat` failures the
*containing* directory rather than the full path of the offending
entry;
in particular a permission-denied subdirectory (a failing `opendir`)
yields a fatal error whose message embeds the full path of that
subdirectory and the OS reason. -/
theorem c7_error_messages :
    (∀ (dir : Str) (d : DirView) (value : Nat) (m : Str),
      (get_dir_usage dir d value).1 = some m →
      ∃ p r, dir <+: p ∧ r ∈ view_reasons d ∧
        (m = opendirFailMsg p r ∨ m = lstatFailMsg p r)) ∧
    get_dir_usage "/m".toList
        (.listing (.cons "sub".toList
          (.isdir 4096 (.openErr "Permission denied".toList)) .nil)) 0 =
      (some (opendirFailMsg "/m/sub".toList "Permission denied".toList), 0) :=
  ⟨get_dir_usage_error_shape, by decide⟩

/-- C7 witness: the universal part applied to a walk that fails with
`opendir(/m/sub) failed: Permission denied`. -/
theorem c7_witness :
    ((get_dir_usage "/m".toList
        (.listing (.cons "sub".toList
          (.isdir 4096 (.openErr "Permission denied".toList)) .nil)) 0).1 =
      some (opendirFailMsg "/m/sub".toList "Permission denied".toList)) ∧
    (∃ p r, "/m".toList <+: p ∧
      r ∈ view_reasons (.listing (.cons "sub".toList
        (.isdir 4096 (.openErr "Permission denied".toList)) .nil)) ∧
      (opendirFailMsg "/m/sub".toList "Permission denied".toList =
          opendirFailMsg p r ∨
        opendirFailMsg "/m/sub".toList "Permission denied".toList =
          lstatFailMsg p r)) :=
  ⟨by decide,
    c7_error_messages.1 "/m".toList
      (.listing (.cons "sub".toList
        (.isdir 4096 (.openErr "Permission denied".toList)) .nil)) 0
      (opendirFailMsg "/m/sub".toList "Permission denied".toList)
      (by decide)⟩

/-! ### C8, C9, C10: the backend contract surface -/

/-- C8: `dirsize_quota_get_resource` matches the requested name
case-insensitively against the storage-bytes identifier; on any
mismatch it returns the distinct unknown-resource result with the
value of the caller untouched and the fixed unknown-resource
message —
never a numeric result, never an internal error; on a match it
returns `limited` exactly when the scan succeeded and
`internalError` exactly when the scan failed. -/
theorem c8_get_resource_dispatch (root : QuotaRoot) (fs : Str → Entry)
    (name : Str) (v : Nat) :
    (str_casecmp_eq name QUOTA_NAME_STORAGE_BYTES = false →
      dirsize_quota_get_resource root fs name v =
        (.unknownResource, v, some QUOTA_UNKNOWN_RESOURCE_ERROR_STRING)) ∧
    (str_casecmp_eq name QUOTA_NAME_STORAGE_BYTES = true →
      ((get_quota_root_usage root fs).1 = none →
        (dirsize_quota_get_resource root fs name v).1 = .limited) ∧
      (∀ e, (get_quota_root_usage root fs).1 = some e →
        (dirsize_quota_get_resource root fs name v).1 = .internalError)) := by
  constructor
  · intro h
    unfold dirsize_quota_get_resource
    rw [h]
    rfl
  · intro h
    unfold dirsize_quota_get_resource
    rw [h]
    rcases hu : get_quota_root_usage root fs with ⟨err, vv⟩
    constructor
    · intro hnone
      have hn : err = none := hnone
      subst hn
      rfl
    · intro e he
      have hn : err = some e := he
      subst hn
      rfl

/-- C8 witness: requesting `message-count` yields the
unknown-resource result with the value of the caller intact. -/
theorem c8_witness :
    str_casecmp_eq "message-count".toList QUOTA_NAME_STORAGE_BYTES = false ∧
    dirsize_quota_get_resource ⟨[]⟩ (fun _ => .gone) "message-count".toList 7 =
      (.unknownResource, 7, some QUOTA_UNKNOWN_RESOURCE_ERROR_STRING) :=
  ⟨by decide,
    (c8_get_resource_dispatch ⟨[]⟩ (fun _ => .gone) "message-count".toList 7).1
      (by decide)⟩

/-- C9 counterexample: the resource list returned by the backend
holds the storage-kilobytes identifier, not the storage-bytes
identifier `getResource` matches, so it differs from
`["storage-bytes"]`. -/
theorem c9_counterexample :
    dirsize_quota_root_get_resources ⟨[]⟩ ≠ [QUOTA_NAME_STORAGE_BYTES] := by
  decide

/-- C9 amended: `dirsize_quota_root_get_resources` returns exactly a
one-element list for every root, but the single identifier in it is
the storage-kilobytes identifier (`QUOTA_NAME_STORAGE_KILOBYTES`,
called "storage, measured in kilobytes" by the spec), distinct from
the storage-bytes identifier that `getResource` matches. -/
theorem c9_resources_amended :
    (∀ root : QuotaRoot,
      dirsize_quota_root_get_resources root = [QUOTA_NAME_STORAGE_KILOBYTES] ∧
      (dirsize_quota_root_get_resources root).length = 1) ∧
    QUOTA_NAME_STORAGE_KILOBYTES ≠ QUOTA_NAME_STORAGE_BYTES :=
  ⟨fun _ => ⟨rfl, rfl⟩, by decide⟩

/-- C10: on a resource-name mismatch, `dirsize_quota_get_resource`
returns without ever writing to the caller-supplied value cell: the
value component of the result is exactly the value passed in. -/
theorem c10_mismatch_preserves_value (root : QuotaRoot) (fs : Str → Entry)
    (name : Str) (v : Nat)
    (h : str_casecmp_eq name QUOTA_NAME_STORAGE_BYTES = false) :
    (dirsize_quota_get_resource root fs name v).2.1 = v := by
  unfold dirsize_quota_get_resource
  rw [h]
  rfl

/-- C10 witness: requesting `message-count` with value 42 leaves the
value at 42. -/
theorem c10_witness :
    str_casecmp_eq "message-count".toList QUOTA_NAME_STORAGE_BYTES = false ∧
    (dirsize_quota_get_resource ⟨[]⟩ (fun _ => .gone)
      "message-count".toList 42).2.1 = 42 :=
  ⟨by decide,
    c10_mismatch_preserves_value ⟨[]⟩ (fun _ => .gone) "message-count".toList 42
      (by decide)⟩

end QuotaDirsize
